import Mathlib

/-!
Verification of the decision engine in Poker.py (heads-up no-limit bot).

Shallow embedding conventions:
* Python ints are modelled as `Int` (or `Nat` for counts and indices).
* Python floats in this code only ever hold exact small dyadic/decimal
  values produced by the arithmetic written in the source, so they are
  modelled as `Rat`.
* A two-character card code such as "AS" is modelled as the natural number
  rankChar * 256 + suitChar (ASCII codes); with both characters below 256
  this encoding is ordered exactly like Python compares the two-character
  strings (lexicographically), which is what tuple(sorted([c1, c2])) uses.
* The external hand comparator (pokerkit StandardHighHand) and the random
  number generator are out of scope per the design document; functions that
  consume them take the per-trial comparison outcome as an explicit
  argument, and the table-engine state is a record of the queried fields.
-/

set_option maxRecDepth 1000000

namespace Poker

/-- ASCII codes of the rank characters "23456789TJQKA", in source order. -/
def rankChars : List Nat := [50, 51, 52, 53, 54, 55, 56, 57, 84, 74, 81, 75, 65]

/-- ASCII codes of the suit characters "CDHS", in source order. -/
def suitChars : List Nat := [67, 68, 72, 83]

/-- A card code, encoding the two ASCII characters as rank * 256 + suit. -/
abbrev Code := Nat

/-- Encode a (rank char, suit char) pair as a single natural number. -/
def enc (r s : Nat) : Code := r * 256 + s

/-- First character of a code (the rank character), as in Python c[0]. -/
def _rank_of (c : Code) : Nat := c / 256

/-- Second character of a code (the suit character), as in Python c[1]. -/
def _suit_of (c : Code) : Nat := c % 256

/-- _RANK_TO_VALUE from the source: maps a rank character to 2..14
(0 for characters outside the table, which never occur on deck codes). -/
def _RANK_TO_VALUE (r : Nat) : Nat :=
  if r = 50 then 2 else if r = 51 then 3 else if r = 52 then 4
  else if r = 53 then 5 else if r = 54 then 6 else if r = 55 then 7
  else if r = 56 then 8 else if r = 57 then 9 else if r = 84 then 10
  else if r = 74 then 11 else if r = 81 then 12 else if r = 75 then 13
  else if r = 65 then 14 else 0

/-- The 52-card deck [r + s for r in "23456789TJQKA" for s in "CDHS"],
in the enumeration order used by the source. -/
def deck : List Code := rankChars.flatMap (fun r => suitChars.map (fun s => enc r s))

/-- _preflop_strength_score from the source: heuristic score of a 2-card
hand, higher is stronger.  The source accumulates the score in a float, but
every value it ever produces is a small integer (sums of the integer bonuses
below), so the score is modelled as an integer. -/
def _preflop_strength_score (c1 c2 : Code) : Int :=
  let r1 := _rank_of c1
  let s1 := _suit_of c1
  let r2 := _rank_of c2
  let s2 := _suit_of c2
  let v1 := _RANK_TO_VALUE r1
  let v2 := _RANK_TO_VALUE r2
  let hi := max v1 v2
  let lo := min v1 v2
  let suited := s1 = s2
  let pair := r1 = r2
  let gap := max v1 v2 - min v1 v2
  if pair then
    (0 : Int) + (100 + (hi : Int) * 6)
  else
    (0 : Int) + ((hi : Int) * 4 + (lo : Int) * 2)
      + (if suited then 6 else 0)
      + (if gap = 1 then 5 else (if gap = 2 then 2 else 0))
      + (if 11 ≤ hi ∧ 10 ≤ lo then 6 else 0)
      + (if hi = 14 then 4 else 0)

/-- The scoring formula exactly as the specification words it: pairs score
100 + 6*highRank; non-pairs score 4*highRank + 2*lowRank, plus 6 if suited,
plus 5 if the gap is 1, plus 2 if the gap is 2, plus 6 if both ranks are at
least Ten, plus 4 if an Ace is present. -/
def spec_strength_score (c1 c2 : Code) : Int :=
  let v1 := _RANK_TO_VALUE (_rank_of c1)
  let v2 := _RANK_TO_VALUE (_rank_of c2)
  let hi := max v1 v2
  let lo := min v1 v2
  if _rank_of c1 = _rank_of c2 then
    100 + 6 * (hi : Int)
  else
    4 * (hi : Int) + 2 * (lo : Int)
      + (if _suit_of c1 = _suit_of c2 then 6 else 0)
      + (if hi - lo = 1 then 5 else 0)
      + (if hi - lo = 2 then 2 else 0)
      + (if 10 ≤ v1 ∧ 10 ≤ v2 then 6 else 0)
      + (if v1 = 14 ∨ v2 = 14 then 4 else 0)

/-- _combo_key from the source: tuple(sorted([c1, c2])).  On the numeric
encoding, sorting the two 2-character strings is sorting the two numbers. -/
def _combo_key (c1 c2 : Code) : Code × Code := (min c1 c2, max c1 c2)

/-- One entry of the combo enumeration: (score, canonical key). -/
abbrev Combo := Int × (Code × Code)

/-- The nested loop of _preflop_percentile_table: all pairs (i, j) with
i < j, in order, each contributing (score, key). -/
def combosOf : List Code → List Combo
  | [] => []
  | x :: xs =>
      xs.map (fun y => (_preflop_strength_score x y, _combo_key x y)) ++ combosOf xs

/-- The 1326 combos of the full deck, in source enumeration order. -/
def combos : List Combo := combosOf deck

/-- The ascending-by-score comparison used by the sort. -/
def scoreLe (a b : Combo) : Bool := decide (a.1 ≤ b.1)

/-- combos.sort(key=lambda x: x[0]): a stable sort ascending by score. -/
def sortedCombos : List Combo := combos.mergeSort scoreLe

/-- The percentile-assignment loop: entry number i (0-based, starting at j)
of the sorted list receives percentile (i + 1) / n. -/
def assignPct (n : ℚ) : Nat → List Combo → List ((Code × Code) × ℚ)
  | _, [] => []
  | j, e :: es => (e.2, ((j + 1 : ℕ) : ℚ) / n) :: assignPct n (j + 1) es

/-- _preflop_percentile_table as a function of a dummy argument, so that
the determinism of rebuilding the cached table can be stated. -/
def buildPercentileTable (_u : Unit) : List ((Code × Code) × ℚ) :=
  assignPct ((combos.length : ℕ) : ℚ) 0 sortedCombos

/-- The cached percentile table (key to percentile association list;
the keys are pairwise distinct, so it is the Python dict). -/
def _preflop_percentile_table : List ((Code × Code) × ℚ) :=
  buildPercentileTable ()

/-- Association-list lookup, the pct[key] access of the Python dict. -/
def alookup (k : Code × Code) : List ((Code × Code) × ℚ) → Option ℚ
  | [] => none
  | e :: es => if e.1 = k then some e.2 else alookup k es

/-- determine_card_winner from the source.  The external hand comparator
(StandardHighHand construction plus its ordering) is a collaborator outside
the core, so it is passed in as a pure comparison function cmp returning
the ordering of the bot hand against the player hand (gt means the bot hand
is stronger).  The board-length guard and the mapping of the comparison to
a result string are the code under verification. -/
def determine_card_winner
    (cmp : List Code → List Code → List Code → Ordering)
    (player_hole_codes bot_hole_codes board_codes : List Code) : String :=
  if board_codes.length ≠ 5 then "tie"
  else
    match cmp bot_hole_codes player_hole_codes board_codes with
    | Ordering.gt => "bot"
    | Ordering.lt => "player"
    | Ordering.eq => "tie"

/-- The win/tie tally of a Monte Carlo loop.  The random board completion
and the external comparator together determine, for each trial index, how
the hero hand compares to the villain hand (gt is a hero win, eq a tie);
that per-trial outcome is the function argument.  Returns (wins, ties). -/
def tally (outcome : Nat → Ordering) : Nat → Nat × Nat
  | 0 => (0, 0)
  | n + 1 =>
      let p := tally outcome n
      match outcome n with
      | Ordering.gt => (p.1 + 1, p.2)
      | Ordering.eq => (p.1, p.2 + 1)
      | Ordering.lt => p

/-- estimate_equity_vs_known_hand from the source, with the sampling and
comparison of one trial abstracted into outcome (see tally).  The Python
loop runs range(trials), which is empty for trials below one, and the
single division at the return is the only place the trial count is used;
dividing by zero raises, modelled as the error case. -/
def estimate_equity_vs_known_hand (outcome : Nat → Ordering) (trials : Int) :
    Except String ℚ :=
  let wt := tally outcome trials.toNat
  if trials = 0 then Except.error "ZeroDivisionError"
  else Except.ok (((wt.1 : ℚ) + (1 / 2) * (wt.2 : ℚ)) / (trials : ℚ))

/-- estimate_equity_vs_range from the source, same shape: the villain-hand
rejection sampling, board fill and comparison of one trial are abstracted
into outcome, and the function returns (wins + 0.5 * ties) / trials with
the identical empty-range and division behavior. -/
def estimate_equity_vs_range (outcome : Nat → Ordering) (trials : Int) :
    Except String ℚ :=
  let wt := tally outcome trials.toNat
  if trials = 0 then Except.error "ZeroDivisionError"
  else Except.ok (((wt.1 : ℚ) + (1 / 2) * (wt.2 : ℚ)) / (trials : ℚ))

/-- estimate_villain_top_frac from the source. -/
def estimate_villain_top_frac (board_len : Nat) (_required_eq : ℚ)
    (cca pot : Int) : ℚ :=
  let pressure : ℚ := if pot + cca > 0 then (cca : ℚ) / ((pot : ℚ) + (cca : ℚ)) else 0
  let base : ℚ :=
    if board_len = 0 then 55 / 100
    else if board_len = 3 then 45 / 100
    else if board_len = 4 then 40 / 100
    else if board_len = 5 then 35 / 100
    else 50 / 100
  let top_frac := base - (60 / 100) * pressure
  max (10 / 100) (min (70 / 100) top_frac)

/-- The claim formula for estimate_villain_top_frac, worded exactly as the
specification states it: pressure is callAmount / (pot + callAmount) and is
0 only when that denominator is 0. -/
def claim_villain_top_frac (board_len : Nat) (_required_eq : ℚ)
    (cca pot : Int) : ℚ :=
  let pressure : ℚ := if pot + cca = 0 then 0 else (cca : ℚ) / ((pot : ℚ) + (cca : ℚ))
  let base : ℚ :=
    if board_len = 0 then 55 / 100
    else if board_len = 3 then 45 / 100
    else if board_len = 4 then 40 / 100
    else if board_len = 5 then 35 / 100
    else 50 / 100
  max (10 / 100) (min (70 / 100) (base - (60 / 100) * pressure))

/-- estimate_fold_probability from the source. -/
def estimate_fold_probability (villain_top_frac : ℚ) (raise_to pot : Int) : ℚ :=
  let tightness : ℚ := 1 - villain_top_frac
  let r : ℚ := (raise_to : ℚ) / ((max 1 pot : Int) : ℚ)
  let size_term : ℚ := min 1 ((35 / 100) * r)
  let base : ℚ := (40 / 100) * villain_top_frac + 10 / 100
  let fold_p := base + size_term - (25 / 100) * tightness
  max (5 / 100) (min (75 / 100) fold_p)

/-- ev_of_raise from the source. -/
def ev_of_raise (eq_when_called fold_p : ℚ) (pot invest : Int) : ℚ :=
  let pot_if_called : Int := pot + 2 * invest
  fold_p * (pot : ℚ) +
    (1 - fold_p) * (eq_when_called * (pot_if_called : ℚ) - (1 - eq_when_called) * (invest : ℚ))

/-- Python int() applied to a float: truncation toward zero. -/
def int_trunc (q : ℚ) : Int := if q < 0 then ⌈q⌉ else ⌊q⌋

/-- The table-engine state fields that choose_bot_action queries.  Fields
probed with getattr fallbacks in Python are Option-valued; the legality
predicate of the engine is an arbitrary Boolean function. -/
structure EngineState where
  actor_index : Option Nat
  can_check_or_call : Bool
  can_fold : Bool
  min_completion_betting_or_raising_to_amount : Option Int
  max_completion_betting_or_raising_to_amount : Option Int
  can_complete_bet_or_raise_to : Int → Bool
  checking_or_calling_amount : Option Int
  check_or_call_amount : Option Int
  calling_amount : Option Int
  total_pot_amount : Option Int
  «stacks» : Nat → Int
  board_len : Nat

/-- BotParams from the source (the numeric defaults live at use sites). -/
structure BotParams where
  call_edge : ℚ
  value_raise_freq : ℚ
  bluff_freq : ℚ
  bluff_additional_risk : ℚ
  value_raise_frac : ℚ
  bluff_raise_frac : ℚ
  jam_equity : ℚ
  jam_freq : ℚ

/-- The outcomes of the four independent uniform draws a single call of
choose_bot_action can make, one per random.random() comparison site. -/
structure Draws where
  d_free_value : Bool
  d_jam : Bool
  d_value : Bool
  d_bluff : Bool

/-- The getattr cascade for the call amount: first of the three candidate
fields that is present, else 0. -/
def cca_of (s : EngineState) : Int :=
  match s.checking_or_calling_amount with
  | some v => v
  | none =>
      match s.check_or_call_amount with
      | some v => v
      | none =>
          match s.calling_amount with
          | some v => v
          | none => 0

/-- total_pot_amount, defaulting to 0 when absent. -/
def pot_of (s : EngineState) : Int :=
  match s.total_pot_amount with
  | some v => v
  | none => 0

/-- The can_raise test of choose_bot_action: both bounds present, ordered,
and the minimum raise-to accepted by the engine. -/
def can_raise_of (s : EngineState) : Bool :=
  match s.min_completion_betting_or_raising_to_amount,
        s.max_completion_betting_or_raising_to_amount with
  | some m, some M => decide (m ≤ M) && s.can_complete_bet_or_raise_to m
  | _, _ => false

/-- The jam legality test inside the value branch: max raise-to present
and accepted by the engine. -/
def jam_legal_of (s : EngineState) : Bool :=
  match s.max_completion_betting_or_raising_to_amount with
  | some M => s.can_complete_bet_or_raise_to M
  | none => false

/-- Python x or y on Optional[int]: y whenever x is None or x == 0
(0 is falsy in Python). -/
def pyOr (x y : Option Int) : Option Int :=
  match x with
  | none => y
  | some v => if v = 0 then y else some v

/-- small_raise_to from choose_bot_action. -/
def small_raise_to (s : EngineState) : Option Int :=
  if can_raise_of s then
    match s.min_completion_betting_or_raising_to_amount with
    | some m => if s.can_complete_bet_or_raise_to m then some m else none
    | none => none
  else none

/-- big_raise_to from choose_bot_action: clamp stack * frac into the legal
raise window, falling back to the small raise when the clamp is rejected. -/
def big_raise_to (s : EngineState) (my_stack : Int) (frac_of_stack : ℚ) :
    Option Int :=
  if can_raise_of s then
    match s.min_completion_betting_or_raising_to_amount,
          s.max_completion_betting_or_raising_to_amount with
    | some m, some M =>
        let target := int_trunc ((my_stack : ℚ) * frac_of_stack)
        let amt := max m target
        let amt2 := min M amt
        if s.can_complete_bet_or_raise_to amt2 then some amt2
        else small_raise_to s
    | _, _ => none
  else none

/-- The required_eq computation at the top of choose_bot_action:
cca / (pot + cca) when money is in front, else 1.0. -/
def required_eq_of (s : EngineState) : ℚ :=
  if pot_of s + cca_of s > 0 then
    ((cca_of s : Int) : ℚ) / (((pot_of s : Int) : ℚ) + ((cca_of s : Int) : ℚ))
  else 1

/-- The villain_top_frac computation of choose_bot_action. -/
def villain_top_frac_of (s : EngineState) : ℚ :=
  estimate_villain_top_frac s.board_len (required_eq_of s) (cca_of s) (pot_of s)

/-- Source lines after the bluff block: fold if legal, else check or call
if legal, else fold. -/
def fallback_of (s : EngineState) : String × Option Int :=
  if s.can_fold then ("f", none)
  else if s.can_check_or_call then ("c", none) else ("f", none)

/-- The bluff / semi-bluff block of choose_bot_action, followed by the
fall-through code (fallback_of). -/
def bluffStep_of (s : EngineState) (params : BotParams) (eq : ℚ) (d : Draws)
    (my_stack : Int) : String × Option Int :=
  if can_raise_of s ∧ d.d_bluff then
    if villain_top_frac_of s ≥ 18 / 100 then
      match pyOr (big_raise_to s my_stack params.bluff_raise_frac)
          (small_raise_to s) with
      | some amt =>
          let fold_p := estimate_fold_probability (villain_top_frac_of s) amt (pot_of s)
          let invest := amt
          let evr := ev_of_raise eq fold_p (pot_of s) invest
          if evr > 0 then ("r", some amt) else fallback_of s
      | none => fallback_of s
    else fallback_of s
  else fallback_of s

/-- The call-if-profitable line of choose_bot_action, followed by the
fall-through code (bluffStep_of). -/
def callStep_of (s : EngineState) (params : BotParams) (eq : ℚ) (d : Draws)
    (my_stack : Int) : String × Option Int :=
  if s.can_check_or_call ∧ eq ≥ required_eq_of s + params.call_edge then ("c", none)
  else bluffStep_of s params eq d my_stack

/-- The value-raise block of choose_bot_action (jam attempt, value raise,
inline call check), followed by the fall-through code (callStep_of). -/
def valueStep_of (s : EngineState) (params : BotParams) (eq : ℚ) (d : Draws)
    (my_stack : Int) : String × Option Int :=
  if can_raise_of s ∧ eq ≥ max (70 / 100) (required_eq_of s + 12 / 100) then
    if eq ≥ params.jam_equity ∧ d.d_jam ∧ jam_legal_of s then ("a", none)
    else if d.d_value then
      match pyOr (big_raise_to s my_stack params.value_raise_frac)
          (small_raise_to s) with
      | some amt => ("r", some amt)
      | none =>
          if s.can_check_or_call ∧ eq ≥ required_eq_of s + params.call_edge then
            ("c", none)
          else callStep_of s params eq d my_stack
    else
      if s.can_check_or_call ∧ eq ≥ required_eq_of s + params.call_edge then
        ("c", none)
      else callStep_of s params eq d my_stack
  else callStep_of s params eq d my_stack

/-- choose_bot_action from the source.  The Monte Carlo equity estimate is
random-valued, so its value eq is an input; the four random.random()
threshold comparisons are the entries of d.  Sequential fall-through of the
Python if blocks is expressed with the step functions above (later source
lines appear as the fall-through continuation of earlier ones). -/
def choose_bot_action (s : EngineState) (params : BotParams) (eq : ℚ)
    (d : Draws) : String × Option Int :=
  match s.actor_index with
  | none => ("c", none)
  | some actor =>
      let cca := cca_of s
      let my_stack := s.stacks actor
      if cca = 0 ∧ s.can_check_or_call then
        if can_raise_of s ∧ eq ≥ 62 / 100 ∧ d.d_free_value then
          match pyOr (big_raise_to s my_stack params.value_raise_frac)
              (small_raise_to s) with
          | some amt => ("r", some amt)
          | none => ("c", none)
        else ("c", none)
      else valueStep_of s params eq d my_stack

/-- The BotParams defaults from the source. -/
def p0 : BotParams :=
  { call_edge := 2 / 100, value_raise_freq := 90 / 100, bluff_freq := 5 / 100,
    bluff_additional_risk := 8 / 100, value_raise_frac := 45 / 100,
    bluff_raise_frac := 30 / 100, jam_equity := 82 / 100, jam_freq := 10 / 100 }

/-- All four random draws land on the failing side of their thresholds. -/
def dFalse : Draws :=
  { d_free_value := false, d_jam := false, d_value := false, d_bluff := false }

/-- The free-check value-raise draw succeeds, the others fail. -/
def dFree : Draws :=
  { d_free_value := true, d_jam := false, d_value := false, d_bluff := false }

/-- A concrete free-check spot: no call cost, raising legal with window
[100, 1000], the engine accepting every amount, stack 1000, pot 100. -/
def sFreeCheck : EngineState :=
  { actor_index := some 1, can_check_or_call := true, can_fold := true,
    min_completion_betting_or_raising_to_amount := some 100,
    max_completion_betting_or_raising_to_amount := some 1000,
    can_complete_bet_or_raise_to := fun _ => true,
    checking_or_calling_amount := some 0, check_or_call_amount := none,
    calling_amount := none, total_pot_amount := some 100,
    «stacks» := fun _ => 1000, board_len := 0 }

/-- A concrete facing-a-bet spot: call cost 100 into pot 100 (pot odds
exactly one half), raising unavailable, folding and calling legal. -/
def sFacingBet : EngineState :=
  { actor_index := some 1, can_check_or_call := true, can_fold := true,
    min_completion_betting_or_raising_to_amount := none,
    max_completion_betting_or_raising_to_amount := none,
    can_complete_bet_or_raise_to := fun _ => false,
    checking_or_calling_amount := some 100, check_or_call_amount := none,
    calling_amount := none, total_pot_amount := some 100,
    «stacks» := fun _ => 1000, board_len := 3 }

/-- A degenerate engine snapshot reporting no legal action at all. -/
def sNoLegal : EngineState :=
  { actor_index := some 1, can_check_or_call := false, can_fold := false,
    min_completion_betting_or_raising_to_amount := none,
    max_completion_betting_or_raising_to_amount := none,
    can_complete_bet_or_raise_to := fun _ => false,
    checking_or_calling_amount := some 100, check_or_call_amount := none,
    calling_amount := none, total_pot_amount := some 100,
    «stacks» := fun _ => 1000, board_len := 3 }

/-- C8: ev_of_raise equals
foldP * pot + (1 - foldP) * (equityIfCalled * (pot + 2 * invest) - (1 - equityIfCalled) * invest)
for all inputs, and ev_of_raise (0.5, 1.0, 100, 50) = 100. -/
theorem ev_of_raise_spec :
    (∀ (e f : ℚ) (pot invest : Int),
        ev_of_raise e f pot invest =
          f * (pot : ℚ) +
            (1 - f) * (e * ((pot : ℚ) + 2 * (invest : ℚ)) - (1 - e) * (invest : ℚ))) ∧
    ev_of_raise (1 / 2) 1 100 50 = 100 := by
  constructor
  · intro e f pot invest
    unfold ev_of_raise
    push_cast
    ring
  · unfold ev_of_raise
    norm_num

/-- C4: estimate_fold_probability is non-decreasing in raise_to for fixed
pot and villain_top_frac, non-decreasing in villain_top_frac for fixed
raise_to and pot, and its result always lies in [0.05, 0.75]. -/
theorem estimate_fold_probability_monotone_bounded :
    (∀ (v : ℚ) (r1 r2 pot : Int), r1 ≤ r2 →
        estimate_fold_probability v r1 pot ≤ estimate_fold_probability v r2 pot) ∧
    (∀ (v1 v2 : ℚ) (r pot : Int), v1 ≤ v2 →
        estimate_fold_probability v1 r pot ≤ estimate_fold_probability v2 r pot) ∧
    (∀ (v : ℚ) (r pot : Int),
        5 / 100 ≤ estimate_fold_probability v r pot ∧
          estimate_fold_probability v r pot ≤ 75 / 100) := by
  refine ⟨?_, ?_, ?_⟩
  · intro v r1 r2 pot h
    unfold estimate_fold_probability
    have hM : (0 : ℚ) < ((max 1 pot : Int) : ℚ) := by
      have h1 : (1 : Int) ≤ max 1 pot := le_max_left _ _
      have : (0 : Int) < max 1 pot := lt_of_lt_of_le zero_lt_one h1
      exact_mod_cast this
    have hdiv : (r1 : ℚ) / ((max 1 pot : Int) : ℚ) ≤ (r2 : ℚ) / ((max 1 pot : Int) : ℚ) :=
      (div_le_div_iff_of_pos_right hM).mpr (by exact_mod_cast h)
    apply max_le_max le_rfl
    apply min_le_min le_rfl
    have hmin : min (1 : ℚ) (35 / 100 * ((r1 : ℚ) / ((max 1 pot : Int) : ℚ))) ≤
        min (1 : ℚ) (35 / 100 * ((r2 : ℚ) / ((max 1 pot : Int) : ℚ))) := by
      apply min_le_min le_rfl
      linarith
    linarith
  · intro v1 v2 r pot h
    unfold estimate_fold_probability
    apply max_le_max le_rfl
    apply min_le_min le_rfl
    linarith
  · intro v r pot
    unfold estimate_fold_probability
    constructor
    · exact le_max_left _ _
    · exact max_le (by norm_num) (le_trans (min_le_left _ _) le_rfl)

/-- C5 counterexample: at board length 0, cca = -2, pot = 1 the denominator
pot + cca is negative; the code zeroes the pressure (its test is
pot + cca > 0) while the claim formula, which zeroes pressure only when the
denominator is exactly 0, would divide and clamp to the bottom. -/
theorem villain_top_frac_counterexample :
    estimate_villain_top_frac 0 0 (-2) 1 = 55 / 100 ∧
    claim_villain_top_frac 0 0 (-2) 1 = 10 / 100 ∧
    estimate_villain_top_frac 0 0 (-2) 1 ≠ claim_villain_top_frac 0 0 (-2) 1 := by
  refine ⟨?_, ?_, ?_⟩ <;>
    norm_num [estimate_villain_top_frac, claim_villain_top_frac, max_def, min_def]

/-- C5 amended: estimate_villain_top_frac returns the clamp to
[0.10, 0.70] of base - 0.60 * pressure where pressure is
cca / (pot + cca) when pot + cca is positive and 0 otherwise (not merely
when the denominator is 0), with base 0.55 / 0.45 / 0.40 / 0.35 for board
lengths 0 / 3 / 4 / 5 and 0.50 otherwise; the output always lies in
[0.10, 0.70]. -/
theorem estimate_villain_top_frac_amended :
    (∀ (b : Nat) (req : ℚ) (cca pot : Int),
        estimate_villain_top_frac b req cca pot =
          max (10 / 100) (min (70 / 100)
            ((if b = 0 then (55 : ℚ) / 100 else if b = 3 then 45 / 100
              else if b = 4 then 40 / 100 else if b = 5 then 35 / 100 else 50 / 100) -
              (60 / 100) *
                (if pot + cca > 0 then (cca : ℚ) / ((pot : ℚ) + (cca : ℚ)) else 0)))) ∧
    (∀ (b : Nat) (req : ℚ) (cca pot : Int),
        10 / 100 ≤ estimate_villain_top_frac b req cca pot ∧
          estimate_villain_top_frac b req cca pot ≤ 70 / 100) := by
  constructor
  · intro b req cca pot
    rfl
  · intro b req cca pot
    unfold estimate_villain_top_frac
    exact ⟨le_max_left _ _, max_le (by norm_num) (min_le_left _ _)⟩

/-- C10: for every comparator and all hole-card code lists,
determine_card_winner returns the string tie on any board whose length is
not 5 (the comparator argument is universally quantified, so the result
does not consult it, and the Lean function is total, so no exception
arises); with exactly 5 board cards the result is exactly the image of the
comparator verdict. -/
theorem determine_card_winner_board_guard :
    (∀ (cmp : List Code → List Code → List Code → Ordering) (p b board : List Code),
        board.length ≠ 5 → determine_card_winner cmp p b board = "tie") ∧
    (∀ (cmp : List Code → List Code → List Code → Ordering) (p b board : List Code),
        board.length = 5 →
          determine_card_winner cmp p b board =
            match cmp b p board with
            | Ordering.gt => "bot"
            | Ordering.lt => "player"
            | Ordering.eq => "tie") := by
  constructor
  · intro cmp p b board h
    unfold determine_card_winner
    rw [if_pos h]
  · intro cmp p b board h
    unfold determine_card_winner
    rw [if_neg (by simp [h])]

/-- C10 witness: a concrete short board takes the tie branch and a concrete
full board takes the comparator branch. -/
theorem determine_card_winner_board_guard_witness :
    (([] : List Code).length ≠ 5 ∧
      determine_card_winner (fun _ _ _ => Ordering.gt) [] [] [] = "tie") ∧
    (([1, 2, 3, 4, 5] : List Code).length = 5 ∧
      determine_card_winner (fun _ _ _ => Ordering.gt) [] [] [1, 2, 3, 4, 5] = "bot") :=
  ⟨⟨by decide, determine_card_winner_board_guard.1 (fun _ _ _ => Ordering.gt) [] [] []
      (by decide)⟩,
   ⟨by decide, determine_card_winner_board_guard.2 (fun _ _ _ => Ordering.gt) [] []
      [1, 2, 3, 4, 5] (by decide)⟩⟩

/-- C3 counterexample: at trials = -1 (a trial count at most 0) both Monte
Carlo estimators return the value 0 instead of failing fast: the Python
loop range(-1) is empty and 0 divided by -1 is 0. -/
theorem equity_estimator_trials_counterexample :
    estimate_equity_vs_known_hand (fun _ => Ordering.lt) (-1) = Except.ok 0 ∧
    estimate_equity_vs_range (fun _ => Ordering.lt) (-1) = Except.ok 0 := by
  constructor <;>
    norm_num [estimate_equity_vs_known_hand, estimate_equity_vs_range, tally]

/-- C3 amended: for trials < 0 the estimators silently return 0; for
trials = 0 they fail, but with a division-by-zero error, not an
InvalidArgumentError (no such check exists in the code); for trials of at
least 1 they return (wins + 0.5 * ties) / trials. -/
theorem equity_estimator_trials_amended :
    (∀ (f : Nat → Ordering) (trials : Int), trials < 0 →
        estimate_equity_vs_known_hand f trials = Except.ok 0 ∧
        estimate_equity_vs_range f trials = Except.ok 0) ∧
    (∀ (f : Nat → Ordering),
        estimate_equity_vs_known_hand f 0 = Except.error "ZeroDivisionError" ∧
        estimate_equity_vs_range f 0 = Except.error "ZeroDivisionError") ∧
    (∀ (f : Nat → Ordering) (trials : Int), 1 ≤ trials →
        estimate_equity_vs_known_hand f trials =
          Except.ok ((((tally f trials.toNat).1 : ℚ) +
            (1 / 2) * ((tally f trials.toNat).2 : ℚ)) / (trials : ℚ)) ∧
        estimate_equity_vs_range f trials =
          Except.ok ((((tally f trials.toNat).1 : ℚ) +
            (1 / 2) * ((tally f trials.toNat).2 : ℚ)) / (trials : ℚ))) := by
  refine ⟨?_, ?_, ?_⟩
  · intro f trials h
    have hz : trials ≠ 0 := by omega
    have ht : trials.toNat = 0 := by omega
    constructor <;>
      simp [estimate_equity_vs_known_hand, estimate_equity_vs_range, hz, ht, tally]
  · intro f
    constructor <;>
      simp [estimate_equity_vs_known_hand, estimate_equity_vs_range]
  · intro f trials h
    have hz : trials ≠ 0 := by omega
    constructor <;>
      simp [estimate_equity_vs_known_hand, estimate_equity_vs_range, hz]

/-- C3 witness: the amended behavior at the concrete counts -1 and 2. -/
theorem equity_estimator_trials_amended_witness :
    ((-1 : Int) < 0 ∧
      (estimate_equity_vs_known_hand (fun _ => Ordering.eq) (-1) = Except.ok 0 ∧
        estimate_equity_vs_range (fun _ => Ordering.eq) (-1) = Except.ok 0)) ∧
    ((1 : Int) ≤ 2 ∧
      (estimate_equity_vs_known_hand (fun _ => Ordering.eq) 2 =
          Except.ok ((((tally (fun _ => Ordering.eq) (2 : Int).toNat).1 : ℚ) +
            (1 / 2) * ((tally (fun _ => Ordering.eq) (2 : Int).toNat).2 : ℚ)) / ((2 : Int) : ℚ)) ∧
        estimate_equity_vs_range (fun _ => Ordering.eq) 2 =
          Except.ok ((((tally (fun _ => Ordering.eq) (2 : Int).toNat).1 : ℚ) +
            (1 / 2) * ((tally (fun _ => Ordering.eq) (2 : Int).toNat).2 : ℚ)) / ((2 : Int) : ℚ)))) :=
  ⟨⟨by decide, equity_estimator_trials_amended.1 (fun _ => Ordering.eq) (-1) (by decide)⟩,
   ⟨by decide, equity_estimator_trials_amended.2.2 (fun _ => Ordering.eq) 2 (by decide)⟩⟩

set_option maxHeartbeats 4000000 in
/-- C6: on every unordered pair of distinct cards of the 52-card deck the
source scoring function agrees with the formula stated in the
specification. -/
theorem preflop_strength_score_matches_spec :
    ∀ c1 ∈ deck, ∀ c2 ∈ deck, c1 ≠ c2 →
      _preflop_strength_score c1 c2 = spec_strength_score c1 c2 := by decide

/-- Any raise amount produced by the big-or-small sizing helpers under a
true can_raise test lies inside the reported raise window and passes the
engine legality predicate. -/
theorem raise_choice_legal (s : EngineState) (st : Int) (frac : ℚ) (amt : Int)
    (hcr : can_raise_of s = true)
    (h : pyOr (big_raise_to s st frac) (small_raise_to s) = some amt) :
    ∃ m M, s.min_completion_betting_or_raising_to_amount = some m ∧
      s.max_completion_betting_or_raising_to_amount = some M ∧
      m ≤ amt ∧ amt ≤ M ∧ s.can_complete_bet_or_raise_to amt = true := by
  cases hm : s.min_completion_betting_or_raising_to_amount with
  | none => unfold can_raise_of at hcr; rw [hm] at hcr; simp at hcr
  | some m =>
    cases hM : s.max_completion_betting_or_raising_to_amount with
    | none => unfold can_raise_of at hcr; rw [hm, hM] at hcr; simp at hcr
    | some M =>
      have hcr2 := hcr
      unfold can_raise_of at hcr2
      rw [hm, hM] at hcr2
      simp only [Bool.and_eq_true, decide_eq_true_eq] at hcr2
      obtain ⟨hle, hcm⟩ := hcr2
      have hsmall : small_raise_to s = some m := by
        unfold small_raise_to
        rw [if_pos hcr, hm]
        simp [hcm]
      refine ⟨m, M, rfl, rfl, ?_⟩
      unfold big_raise_to at h
      rw [if_pos hcr, hm, hM] at h
      dsimp only [] at h
      set amt2 := min M (max m (int_trunc ((st : ℚ) * frac))) with hamt2
      have hb1 : m ≤ amt2 := le_min hle (le_max_left _ _)
      have hb2 : amt2 ≤ M := min_le_left _ _
      by_cases hcc : s.can_complete_bet_or_raise_to amt2 = true
      · rw [if_pos hcc] at h
        simp only [pyOr] at h
        by_cases h0 : amt2 = 0
        · rw [if_pos h0, hsmall] at h
          obtain rfl : m = amt := by injection h
          exact ⟨le_refl _, hle, hcm⟩
        · rw [if_neg h0] at h
          obtain rfl : amt2 = amt := by injection h
          exact ⟨hb1, hb2, hcc⟩
      · rw [if_neg hcc, hsmall] at h
        simp only [pyOr] at h
        by_cases h0 : m = 0
        · rw [if_pos h0] at h
          obtain rfl : m = amt := by injection h
          exact ⟨le_refl _, hle, hcm⟩
        · rw [if_neg h0] at h
          obtain rfl : m = amt := by injection h
          exact ⟨le_refl _, hle, hcm⟩

/-- fallback_of only folds or checks, never raises. -/
theorem fallback_of_ne_raise (s : EngineState) (amt : Int) :
    fallback_of s ≠ ("r", some amt) := by
  unfold fallback_of
  split_ifs <;> simp

/-- A raise produced by the bluff block is legal. -/
theorem bluffStep_raise_legal (s : EngineState) (params : BotParams) (eq : ℚ)
    (d : Draws) (st amt : Int)
    (h : bluffStep_of s params eq d st = ("r", some amt)) :
    ∃ m M, s.min_completion_betting_or_raising_to_amount = some m ∧
      s.max_completion_betting_or_raising_to_amount = some M ∧
      m ≤ amt ∧ amt ≤ M ∧ s.can_complete_bet_or_raise_to amt = true := by
  unfold bluffStep_of at h
  by_cases h1 : can_raise_of s = true ∧ d.d_bluff = true
  · rw [if_pos h1] at h
    by_cases h2 : villain_top_frac_of s ≥ 18 / 100
    · rw [if_pos h2] at h
      cases hp : pyOr (big_raise_to s st params.bluff_raise_frac) (small_raise_to s) with
      | none => rw [hp] at h; exact absurd h (fallback_of_ne_raise s amt)
      | some amt0 =>
          rw [hp] at h
          dsimp only at h
          split_ifs at h with h3
          · have h4 : some amt0 = some amt := congrArg Prod.snd h
            injection h4 with h5
            rw [h5] at hp
            exact raise_choice_legal s st params.bluff_raise_frac amt h1.1 hp
          · exact absurd h (fallback_of_ne_raise s amt)
    · rw [if_neg h2] at h
      exact absurd h (fallback_of_ne_raise s amt)
  · rw [if_neg h1] at h
    exact absurd h (fallback_of_ne_raise s amt)

/-- A raise produced by the call-if-profitable line is legal (it can only
come from the bluff block behind it). -/
theorem callStep_raise_legal (s : EngineState) (params : BotParams) (eq : ℚ)
    (d : Draws) (st amt : Int)
    (h : callStep_of s params eq d st = ("r", some amt)) :
    ∃ m M, s.min_completion_betting_or_raising_to_amount = some m ∧
      s.max_completion_betting_or_raising_to_amount = some M ∧
      m ≤ amt ∧ amt ≤ M ∧ s.can_complete_bet_or_raise_to amt = true := by
  unfold callStep_of at h
  split_ifs at h with h1
  · simp at h
  · exact bluffStep_raise_legal s params eq d st amt h

/-- A raise produced by the value block is legal. -/
theorem valueStep_raise_legal (s : EngineState) (params : BotParams) (eq : ℚ)
    (d : Draws) (st amt : Int)
    (h : valueStep_of s params eq d st = ("r", some amt)) :
    ∃ m M, s.min_completion_betting_or_raising_to_amount = some m ∧
      s.max_completion_betting_or_raising_to_amount = some M ∧
      m ≤ amt ∧ amt ≤ M ∧ s.can_complete_bet_or_raise_to amt = true := by
  unfold valueStep_of at h
  by_cases h1 : can_raise_of s = true ∧ eq ≥ max (70 / 100) (required_eq_of s + 12 / 100)
  · rw [if_pos h1] at h
    by_cases h2 : eq ≥ params.jam_equity ∧ d.d_jam = true ∧ jam_legal_of s = true
    · rw [if_pos h2] at h
      simp at h
    · rw [if_neg h2] at h
      by_cases h3 : d.d_value = true
      · rw [if_pos h3] at h
        cases hp : pyOr (big_raise_to s st params.value_raise_frac) (small_raise_to s) with
        | some amt0 =>
            rw [hp] at h
            have h4 : some amt0 = some amt := congrArg Prod.snd h
            injection h4 with h5
            rw [h5] at hp
            exact raise_choice_legal s st params.value_raise_frac amt h1.1 hp
        | none =>
            rw [hp] at h
            dsimp only at h
            split_ifs at h with h4
            · simp at h
            · exact callStep_raise_legal s params eq d st amt h
      · rw [if_neg h3] at h
        split_ifs at h with h4
        · simp at h
        · exact callStep_raise_legal s params eq d st amt h
  · rw [if_neg h1] at h
    exact callStep_raise_legal s params eq d st amt h

/-- C1: whenever choose_bot_action returns a raise decision, the amount
lies inside the currently reported raise-to window and is accepted by the
engine legality predicate can_complete_bet_or_raise_to. -/
theorem choose_bot_action_raise_legal (s : EngineState) (params : BotParams)
    (eq : ℚ) (d : Draws) (amt : Int)
    (h : choose_bot_action s params eq d = ("r", some amt)) :
    ∃ m M, s.min_completion_betting_or_raising_to_amount = some m ∧
      s.max_completion_betting_or_raising_to_amount = some M ∧
      m ≤ amt ∧ amt ≤ M ∧ s.can_complete_bet_or_raise_to amt = true := by
  unfold choose_bot_action at h
  cases hA : s.actor_index with
  | none => rw [hA] at h; simp at h
  | some a =>
      rw [hA] at h
      dsimp only at h
      by_cases h1 : cca_of s = 0 ∧ s.can_check_or_call = true
      · rw [if_pos h1] at h
        by_cases h2 : can_raise_of s = true ∧ eq ≥ 62 / 100 ∧ d.d_free_value = true
        · rw [if_pos h2] at h
          cases hp : pyOr (big_raise_to s (s.stacks a) params.value_raise_frac)
              (small_raise_to s) with
          | some amt0 =>
              rw [hp] at h
              have h4 : some amt0 = some amt := congrArg Prod.snd h
              injection h4 with h5
              rw [h5] at hp
              exact raise_choice_legal s (s.stacks a) params.value_raise_frac amt h2.1 hp
          | none => rw [hp] at h; simp at h
        · rw [if_neg h2] at h
          simp at h
      · rw [if_neg h1] at h
        exact valueStep_raise_legal s params eq d (s.stacks a) amt h

/-- C1 witness: a concrete free-check state in which the policy raises to
450, together with the legality facts for that raise. -/
theorem choose_bot_action_raise_legal_witness :
    choose_bot_action sFreeCheck p0 1 dFree = ("r", some 450) ∧
    (∃ m M, sFreeCheck.min_completion_betting_or_raising_to_amount = some m ∧
      sFreeCheck.max_completion_betting_or_raising_to_amount = some M ∧
      m ≤ 450 ∧ 450 ≤ M ∧ sFreeCheck.can_complete_bet_or_raise_to 450 = true) := by
  have hrun : choose_bot_action sFreeCheck p0 1 dFree = ("r", some 450) := by
    norm_num [choose_bot_action, sFreeCheck, p0, dFree, cca_of, pot_of, can_raise_of,
      pyOr, big_raise_to, small_raise_to, int_trunc, max_def, min_def]
  exact ⟨hrun, choose_bot_action_raise_legal sFreeCheck p0 1 dFree 450 hrun⟩

/-- When folding is legal the fall-through code always folds. -/
theorem fallback_of_can_fold (s : EngineState) (hf : s.can_fold = true) :
    fallback_of s = ("f", none) := by
  unfold fallback_of
  rw [if_pos hf]

/-- When folding is legal the bluff block never produces a check or call. -/
theorem bluffStep_not_call (s : EngineState) (params : BotParams) (eq : ℚ)
    (d : Draws) (st : Int) (hf : s.can_fold = true) :
    bluffStep_of s params eq d st ≠ ("c", none) := by
  have hfb := fallback_of_can_fold s hf
  unfold bluffStep_of
  by_cases h1 : can_raise_of s = true ∧ d.d_bluff = true
  · rw [if_pos h1]
    by_cases h2 : villain_top_frac_of s ≥ 18 / 100
    · rw [if_pos h2]
      cases hp : pyOr (big_raise_to s st params.bluff_raise_frac) (small_raise_to s) with
      | none => rw [hfb]; simp
      | some amt0 =>
          dsimp only
          split_ifs with h3
          · simp
          · rw [hfb]; simp
    · rw [if_neg h2, hfb]; simp
  · rw [if_neg h1, hfb]; simp

/-- If the call-if-profitable line (or anything behind it) checks or calls
while folding is legal, the equity cleared the pot-odds-plus-edge bar. -/
theorem callStep_call_threshold (s : EngineState) (params : BotParams) (eq : ℚ)
    (d : Draws) (st : Int) (hf : s.can_fold = true)
    (h : callStep_of s params eq d st = ("c", none)) :
    eq ≥ required_eq_of s + params.call_edge := by
  unfold callStep_of at h
  split_ifs at h with h1
  · exact h1.2
  · exact absurd h (bluffStep_not_call s params eq d st hf)

/-- Same as callStep_call_threshold, one block earlier. -/
theorem valueStep_call_threshold (s : EngineState) (params : BotParams) (eq : ℚ)
    (d : Draws) (st : Int) (hf : s.can_fold = true)
    (h : valueStep_of s params eq d st = ("c", none)) :
    eq ≥ required_eq_of s + params.call_edge := by
  unfold valueStep_of at h
  by_cases h1 : can_raise_of s = true ∧ eq ≥ max (70 / 100) (required_eq_of s + 12 / 100)
  · rw [if_pos h1] at h
    by_cases h2 : eq ≥ params.jam_equity ∧ d.d_jam = true ∧ jam_legal_of s = true
    · rw [if_pos h2] at h
      exact absurd (congrArg Prod.fst h) (by decide)
    · rw [if_neg h2] at h
      by_cases h3 : d.d_value = true
      · rw [if_pos h3] at h
        cases hp : pyOr (big_raise_to s st params.value_raise_frac) (small_raise_to s) with
        | some amt0 => rw [hp] at h; simp at h
        | none =>
            rw [hp] at h
            dsimp only at h
            split_ifs at h with h4
            · exact h4.2
            · exact callStep_call_threshold s params eq d st hf h
      · rw [if_neg h3] at h
        split_ifs at h with h4
        · exact h4.2
        · exact callStep_call_threshold s params eq d st hf h
  · rw [if_neg h1] at h
    exact callStep_call_threshold s params eq d st hf h

/-- C2: when it is the policy's turn, a call cost is faced and folding is
legal, choose_bot_action answers check-or-call only if the equity estimate
is at least required_eq plus call_edge; and in the concrete scenario with
pot odds exactly one half and call_edge 0.02, an equity of exactly 0.50
folds instead of calling (0.50 is below the 0.52 bar). -/
theorem choose_bot_action_call_threshold :
    (∀ (s : EngineState) (params : BotParams) (eq : ℚ) (d : Draws) (a : Nat),
        s.actor_index = some a → 0 < cca_of s → s.can_fold = true →
        choose_bot_action s params eq d = ("c", none) →
        eq ≥ required_eq_of s + params.call_edge) ∧
    (required_eq_of sFacingBet = 1 / 2 ∧ p0.call_edge = 2 / 100 ∧
      choose_bot_action sFacingBet p0 (1 / 2) dFalse = ("f", none)) := by
  constructor
  · intro s params eq d a hA hcca hf h
    unfold choose_bot_action at h
    rw [hA] at h
    dsimp only at h
    rw [if_neg (fun hc : _ ∧ _ => by omega)] at h
    exact valueStep_call_threshold s params eq d (s.stacks a) hf h
  · refine ⟨?_, rfl, ?_⟩
    · norm_num [required_eq_of, pot_of, cca_of, sFacingBet]
    · norm_num [choose_bot_action, sFacingBet, p0, dFalse, cca_of, pot_of,
        can_raise_of, valueStep_of, callStep_of, bluffStep_of, fallback_of,
        required_eq_of, max_def, min_def]

/-- C2 witness: in the concrete facing-a-bet state with equity 1 the policy
calls, and the theorem yields the equity bar. -/
theorem choose_bot_action_call_threshold_witness :
    (sFacingBet.actor_index = some 1 ∧ 0 < cca_of sFacingBet ∧
      sFacingBet.can_fold = true ∧
      choose_bot_action sFacingBet p0 1 dFalse = ("c", none)) ∧
    (1 : ℚ) ≥ required_eq_of sFacingBet + p0.call_edge := by
  have hrun : choose_bot_action sFacingBet p0 1 dFalse = ("c", none) := by
    norm_num [choose_bot_action, sFacingBet, p0, dFalse, cca_of, pot_of,
      can_raise_of, valueStep_of, callStep_of, bluffStep_of, fallback_of,
      required_eq_of, max_def, min_def]
  refine ⟨⟨rfl, by norm_num [cca_of, sFacingBet], rfl, hrun⟩, ?_⟩
  exact choose_bot_action_call_threshold.1 sFacingBet p0 1 dFalse 1 rfl
    (by norm_num [cca_of, sFacingBet]) rfl hrun

/-- With the bluff draw failing, the bluff block is the fall-through. -/
theorem bluffStep_no_draw (s : EngineState) (params : BotParams) (eq : ℚ)
    (d : Draws) (st : Int) (hb : d.d_bluff = false) :
    bluffStep_of s params eq d st = fallback_of s := by
  unfold bluffStep_of
  rw [if_neg (fun hc : _ ∧ _ => by rw [hb] at hc; exact absurd hc.2 (by simp))]

/-- With low equity and no bluff draw, the call line falls through. -/
theorem callStep_low_eq (s : EngineState) (params : BotParams) (eq : ℚ)
    (d : Draws) (st : Int) (he : eq < required_eq_of s + params.call_edge)
    (hb : d.d_bluff = false) :
    callStep_of s params eq d st = fallback_of s := by
  unfold callStep_of
  rw [if_neg (fun hc : _ ∧ _ => absurd hc.2 (not_le.mpr he)),
    bluffStep_no_draw s params eq d st hb]

/-- With low equity and all draws failing, the value block falls through. -/
theorem valueStep_low_eq (s : EngineState) (params : BotParams) (eq : ℚ)
    (d : Draws) (st : Int) (he : eq < required_eq_of s + params.call_edge)
    (hj : d.d_jam = false) (hv : d.d_value = false) (hb : d.d_bluff = false) :
    valueStep_of s params eq d st = fallback_of s := by
  unfold valueStep_of
  by_cases h1 : can_raise_of s = true ∧ eq ≥ max (70 / 100) (required_eq_of s + 12 / 100)
  · rw [if_pos h1,
      if_neg (fun hc : _ ∧ _ ∧ _ => by rw [hj] at hc; exact absurd hc.2.1 (by simp)),
      if_neg (fun hc : _ = true => by rw [hv] at hc; exact absurd hc (by simp)),
      if_neg (fun hc : _ ∧ _ => absurd hc.2 (not_le.mpr he)),
      callStep_low_eq s params eq d st he hb]
  · rw [if_neg h1, callStep_low_eq s params eq d st he hb]

/-- C9: when no earlier branch of the policy applies (all random draws
fail and the equity is below the calling bar), the decision is: fold when
folding is legal and a nonzero call cost is faced, else check-or-call when
legal, else fold; and even when the engine reports no legal action at all
the policy still returns the fold default. -/
theorem choose_bot_action_fallback_safe :
    (∀ (s : EngineState) (params : BotParams) (eq : ℚ) (d : Draws) (a : Nat),
        s.actor_index = some a →
        d.d_free_value = false → d.d_jam = false → d.d_value = false →
        d.d_bluff = false →
        eq < required_eq_of s + params.call_edge →
        choose_bot_action s params eq d =
          (if s.can_fold = true ∧ cca_of s ≠ 0 then ("f", none)
           else if s.can_check_or_call = true then ("c", none) else ("f", none))) ∧
    (∀ (s : EngineState) (params : BotParams) (eq : ℚ) (d : Draws) (a : Nat),
        s.actor_index = some a →
        s.can_fold = false → s.can_check_or_call = false → can_raise_of s = false →
        choose_bot_action s params eq d = ("f", none)) := by
  constructor
  · intro s params eq d a hA hfree hjam hval hbl he
    unfold choose_bot_action
    rw [hA]
    dsimp only
    by_cases h1 : cca_of s = 0 ∧ s.can_check_or_call = true
    · rw [if_pos h1,
        if_neg (fun hc : _ ∧ _ ∧ _ => by rw [hfree] at hc; exact absurd hc.2.2 (by simp)),
        if_neg (fun hc : s.can_fold = true ∧ cca_of s ≠ 0 => hc.2 h1.1), if_pos h1.2]
    · rw [if_neg h1, valueStep_low_eq s params eq d _ he hjam hval hbl]
      unfold fallback_of
      by_cases hf : s.can_fold = true
      · by_cases hc : cca_of s = 0
        · have hcc : ¬s.can_check_or_call = true := fun hcal => h1 ⟨hc, hcal⟩
          rw [if_pos hf, if_neg (fun hx : s.can_fold = true ∧ cca_of s ≠ 0 => hx.2 hc), if_neg hcc]
        · rw [if_pos hf, if_pos ⟨hf, hc⟩]
      · rw [if_neg hf, if_neg (fun hx : _ ∧ _ => hf hx.1)]
  · intro s params eq d a hA hf hcc hcr
    unfold choose_bot_action
    rw [hA]
    dsimp only
    rw [if_neg (fun hx : _ ∧ _ => by rw [hcc] at hx; exact absurd hx.2 (by simp))]
    unfold valueStep_of
    rw [if_neg (fun hx : _ ∧ _ => by rw [hcr] at hx; exact absurd hx.1 (by simp))]
    unfold callStep_of
    rw [if_neg (fun hx : _ ∧ _ => by rw [hcc] at hx; exact absurd hx.1 (by simp))]
    unfold bluffStep_of
    rw [if_neg (fun hx : _ ∧ _ => by rw [hcr] at hx; exact absurd hx.1 (by simp))]
    unfold fallback_of
    rw [if_neg (by simp [hf]), if_neg (by simp [hcc])]

/-- C9 witness: the fall-through behavior at the two concrete snapshots
(facing a bet with all draws failing, and no legal action at all). -/
theorem choose_bot_action_fallback_safe_witness :
    (sFacingBet.actor_index = some 1 ∧ (0 : ℚ) < required_eq_of sFacingBet + p0.call_edge ∧
      choose_bot_action sFacingBet p0 0 dFalse =
        (if sFacingBet.can_fold = true ∧ cca_of sFacingBet ≠ 0 then (("f" : String), (none : Option Int))
         else if sFacingBet.can_check_or_call = true then ("c", none) else ("f", none))) ∧
    (sNoLegal.can_fold = false ∧ sNoLegal.can_check_or_call = false ∧
      choose_bot_action sNoLegal p0 0 dFalse = ("f", none)) := by
  constructor
  · refine ⟨rfl, ?_, ?_⟩
    · norm_num [required_eq_of, pot_of, cca_of, sFacingBet, p0]
    · exact choose_bot_action_fallback_safe.1 sFacingBet p0 0 dFalse 1 rfl rfl rfl rfl rfl
        (by norm_num [required_eq_of, pot_of, cca_of, sFacingBet, p0])
  · refine ⟨rfl, rfl, ?_⟩
    exact choose_bot_action_fallback_safe.2 sNoLegal p0 0 dFalse 1 rfl rfl rfl
      (by norm_num [can_raise_of, sNoLegal])

/-- C6 witness: ace-king suited evaluated concretely. -/
theorem preflop_strength_score_matches_spec_witness :
    (enc 65 83 ∈ deck ∧ enc 75 83 ∈ deck ∧ enc 65 83 ≠ enc 75 83) ∧
    _preflop_strength_score (enc 65 83) (enc 75 83) =
      spec_strength_score (enc 65 83) (enc 75 83) :=
  ⟨⟨by decide, by decide, by decide⟩,
    preflop_strength_score_matches_spec (enc 65 83) (by decide) (enc 75 83) (by decide)
      (by decide)⟩

/-- C4 witness: concrete instances of both monotonicity parts. -/
theorem estimate_fold_probability_monotone_bounded_witness :
    ((10 : Int) ≤ 20 ∧
      estimate_fold_probability (1 / 2) 10 100 ≤ estimate_fold_probability (1 / 2) 20 100) ∧
    ((1 : ℚ) / 4 ≤ 1 / 2 ∧
      estimate_fold_probability (1 / 4) 10 100 ≤ estimate_fold_probability (1 / 2) 10 100) :=
  ⟨⟨by decide, estimate_fold_probability_monotone_bounded.1 (1 / 2) 10 20 100 (by decide)⟩,
   ⟨by norm_num, estimate_fold_probability_monotone_bounded.2.1 (1 / 4) (1 / 2) 10 100 (by norm_num)⟩⟩

/-- assignPct preserves the list length. -/
theorem assignPct_length (n : ℚ) : ∀ (j : Nat) (l : List Combo),
    (assignPct n j l).length = l.length
  | _, [] => rfl
  | j, _ :: es => by simp [assignPct, assignPct_length n (j + 1) es]

/-- The entry at position i of assignPct keeps the key at that position and
receives the percentile (start + i + 1) / n. -/
theorem assignPct_get (n : ℚ) : ∀ (l : List Combo) (j i : Nat)
    (h : i < (assignPct n j l).length) (h2 : i < l.length),
    (assignPct n j l).get ⟨i, h⟩ = ((l.get ⟨i, h2⟩).2, ((j + i + 1 : ℕ) : ℚ) / n)
  | e :: es, j, 0, _, _ => by simp [assignPct]
  | e :: es, j, i + 1, h, h2 => by
      have hrec := assignPct_get n es (j + 1) i
        (by simpa [assignPct] using Nat.lt_of_succ_lt_succ (by simpa [assignPct] using h))
        (Nat.lt_of_succ_lt_succ h2)
      simp only [assignPct, List.get_cons_succ]
      rw [hrec]
      have harith : j + 1 + i + 1 = j + (i + 1) + 1 := by omega
      rw [harith]

/-- Every value stored by assignPct is (start + i + 1) / n for some
position i inside the list. -/
theorem assignPct_mem (n : ℚ) : ∀ (l : List Combo) (j : Nat) (k : Code × Code) (v : ℚ),
    (k, v) ∈ assignPct n j l → ∃ i, i < l.length ∧ v = ((j + i + 1 : ℕ) : ℚ) / n
  | [], _, _, _, h => absurd h (List.not_mem_nil _)
  | e :: es, j, k, v, h => by
      rcases List.mem_cons.mp h with h1 | h2
      · refine ⟨0, by simp, ?_⟩
        have : v = ((j + 1 : ℕ) : ℚ) / n := congrArg Prod.snd h1
        rw [this]
      · obtain ⟨i, hi, hv⟩ := assignPct_mem n es (j + 1) k v h2
        refine ⟨i + 1, by simpa using Nat.succ_lt_succ hi, ?_⟩
        rw [hv]
        have harith : j + 1 + i + 1 = j + (i + 1) + 1 := by omega
        rw [harith]

/-- The keys of the percentile table are the keys of the sorted combos. -/
theorem assignPct_map_fst (n : ℚ) : ∀ (j : Nat) (l : List Combo),
    (assignPct n j l).map Prod.fst = l.map Prod.snd
  | _, [] => rfl
  | j, e :: es => by simp [assignPct, assignPct_map_fst n (j + 1) es]

/-- The heuristic score does not depend on the order of the two cards. -/
theorem _preflop_strength_score_comm (a b : Code) :
    _preflop_strength_score a b = _preflop_strength_score b a := by
  unfold _preflop_strength_score
  simp only [eq_comm, max_comm, min_comm]

/-- The canonical key does not depend on the order of the two cards. -/
theorem _combo_key_comm (a b : Code) : _combo_key a b = _combo_key b a := by
  unfold _combo_key
  rw [min_comm, max_comm]

/-- Two unordered pairs with the same canonical key are the same pair. -/
theorem _combo_key_inj {a b c d : Nat} (h : _combo_key a b = _combo_key c d) :
    (a = c ∧ b = d) ∨ (a = d ∧ b = c) := by
  unfold _combo_key at h
  have h1 : min a b = min c d := congrArg Prod.fst h
  have h2 : max a b = max c d := congrArg Prod.snd h
  simp only [min_def, max_def] at h1 h2
  split_ifs at h1 h2 <;> omega

/-- Every unordered pair of distinct list members contributes its
(score, key) entry to the combo enumeration. -/
theorem mem_combosOf : ∀ (l : List Code) (a b : Code), a ∈ l → b ∈ l → a ≠ b →
    (_preflop_strength_score a b, _combo_key a b) ∈ combosOf l
  | [], a, _, ha, _, _ => absurd ha (List.not_mem_nil a)
  | x :: xs, a, b, ha, hb, hab => by
      unfold combosOf
      rcases List.mem_cons.mp ha with rfl | ha2
      · have hb2 : b ∈ xs := by
          rcases List.mem_cons.mp hb with rfl | h
          · exact absurd rfl hab
          · exact h
        exact List.mem_append_left _ (List.mem_map.mpr ⟨b, hb2, rfl⟩)
      · rcases List.mem_cons.mp hb with rfl | hb2
        · refine List.mem_append_left _ (List.mem_map.mpr ⟨a, ha2, ?_⟩)
          rw [_preflop_strength_score_comm, _combo_key_comm]
        · exact List.mem_append_right _ (mem_combosOf xs a b ha2 hb2 hab)

/-- Every key of the combo enumeration is the canonical key of a pair of
list members. -/
theorem keys_mem_combosOf : ∀ (l : List Code) (k : Code × Code),
    k ∈ (combosOf l).map Prod.snd → ∃ u v, u ∈ l ∧ v ∈ l ∧ k = _combo_key u v
  | [], _, h => absurd h (by simp [combosOf])
  | x :: xs, k, h => by
      unfold combosOf at h
      rw [List.map_append, List.map_map] at h
      rcases List.mem_append.mp h with h1 | h2
      · obtain ⟨y, hy, hk⟩ := List.mem_map.mp h1
        exact ⟨x, y, List.mem_cons_self x xs, List.mem_cons_of_mem x hy, hk.symm⟩
      · obtain ⟨u, v, hu, hv, hk⟩ := keys_mem_combosOf xs k h2
        exact ⟨u, v, List.mem_cons_of_mem x hu, List.mem_cons_of_mem x hv, hk⟩

/-- On a duplicate-free card list the combo keys are pairwise distinct. -/
theorem nodup_keys_combosOf : ∀ (l : List Code), l.Nodup →
    ((combosOf l).map Prod.snd).Nodup
  | [], _ => by simp [combosOf]
  | x :: xs, h => by
      obtain ⟨hx, hxs⟩ := List.nodup_cons.mp h
      unfold combosOf
      rw [List.map_append, List.map_map]
      apply List.Nodup.append
      · apply List.Nodup.map_on ?_ hxs
        intro u hu v hv huv
        rcases _combo_key_inj huv with ⟨_, h2⟩ | ⟨h1, h2⟩
        · exact h2
        · exact absurd (h1 ▸ hv) hx
      · exact nodup_keys_combosOf xs hxs
      · intro k hk1 hk2
        obtain ⟨y, hy, hky⟩ := List.mem_map.mp hk1
        obtain ⟨u, v, hu, hv, hk⟩ := keys_mem_combosOf xs k hk2
        have hkey : _combo_key x y = _combo_key u v :=
          (show _combo_key x y = k from hky).trans hk
        rcases _combo_key_inj hkey with ⟨h1, _⟩ | ⟨h1, _⟩
        · exact hx (h1 ▸ hu)
        · exact hx (h1 ▸ hv)

/-- Association lookup finds the stored value when the keys are
pairwise distinct. -/
theorem alookup_of_mem : ∀ (t : List ((Code × Code) × ℚ)) (k : Code × Code) (v : ℚ),
    (t.map Prod.fst).Nodup → (k, v) ∈ t → alookup k t = some v
  | [], _, _, _, h => absurd h (List.not_mem_nil _)
  | e :: es, k, v, hnd, hm => by
      have hnd2 : (e.1 :: es.map Prod.fst).Nodup := hnd
      obtain ⟨hhead, htail⟩ := List.nodup_cons.mp hnd2
      unfold alookup
      by_cases hek : e.1 = k
      · rw [if_pos hek]
        rcases List.mem_cons.mp hm with h1 | h2
        · rw [← h1]
        · exact absurd (hek.symm ▸ List.mem_map.mpr ⟨(k, v), h2, rfl⟩) hhead
      · rw [if_neg hek]
        rcases List.mem_cons.mp hm with h1 | h2
        · exact absurd (congrArg Prod.fst h1.symm) hek
        · exact alookup_of_mem es k v htail h2

/-- The sorted combo list is pairwise ascending in score. -/
theorem sortedCombos_pairwise :
    sortedCombos.Pairwise (fun a b => scoreLe a b = true) := by
  apply List.sorted_mergeSort
  · intro a b c hab hbc
    simp only [scoreLe, decide_eq_true_eq] at hab hbc ⊢
    omega
  · intro a b
    simp only [scoreLe, Bool.or_eq_true, decide_eq_true_eq]
    omega

/-- Sorting permutes the combos. -/
theorem sortedCombos_perm : sortedCombos.Perm combos :=
  List.mergeSort_perm combos scoreLe

set_option maxRecDepth 40000 in
/-- The deck has 52 distinct card codes. -/
theorem deck_nodup : deck.Nodup := by decide

set_option maxRecDepth 400000 in
/-- There are 1326 combos. -/
theorem combos_length : combos.length = 1326 := by decide

/-- The keys of the sorted combos are pairwise distinct. -/
theorem sorted_keys_nodup : (sortedCombos.map Prod.snd).Nodup :=
  ((sortedCombos_perm.map Prod.snd).nodup_iff).mpr
    (nodup_keys_combosOf deck deck_nodup)

/-- The keys of the percentile table are pairwise distinct. -/
theorem table_keys_nodup : (_preflop_percentile_table.map Prod.fst).Nodup := by
  unfold _preflop_percentile_table buildPercentileTable
  rw [assignPct_map_fst]
  exact sorted_keys_nodup

/-- The percentile table has one entry per combo. -/
theorem table_length : _preflop_percentile_table.length = 1326 := by
  unfold _preflop_percentile_table buildPercentileTable sortedCombos
  rw [assignPct_length, List.length_mergeSort, combos_length]

/-- Looking up the key of any unordered pair of distinct deck cards finds
the percentile (i + 1) / n of the position i the pair occupies in the
sorted combo list. -/
theorem table_entry_of_pair (a b : Code) (ha : a ∈ deck) (hb : b ∈ deck)
    (hab : a ≠ b) :
    ∃ (i : Nat) (h : i < sortedCombos.length),
      sortedCombos.get ⟨i, h⟩ = (_preflop_strength_score a b, _combo_key a b) ∧
      alookup (_combo_key a b) _preflop_percentile_table =
        some (((i + 1 : ℕ) : ℚ) / ((combos.length : ℕ) : ℚ)) := by
  have hmem : (_preflop_strength_score a b, _combo_key a b) ∈ combos :=
    mem_combosOf deck a b ha hb hab
  have hmem2 : (_preflop_strength_score a b, _combo_key a b) ∈ sortedCombos :=
    sortedCombos_perm.mem_iff.mpr hmem
  obtain ⟨⟨i, hi⟩, hget⟩ := List.mem_iff_get.mp hmem2
  refine ⟨i, hi, hget, ?_⟩
  have hlen : i < (assignPct ((combos.length : ℕ) : ℚ) 0 sortedCombos).length := by
    rw [assignPct_length]
    exact hi
  have hentry := assignPct_get ((combos.length : ℕ) : ℚ) sortedCombos 0 i hlen hi
  rw [hget] at hentry
  have harith : 0 + i + 1 = i + 1 := by omega
  rw [harith] at hentry
  apply alookup_of_mem _ _ _ table_keys_nodup
  unfold _preflop_percentile_table buildPercentileTable
  rw [← hentry]
  exact List.get_mem _ _ _

/-- C7: the percentile table enumerates all 1326 unordered combos; entry i
of the table (built over the score-sorted combos) is the key at sorted
position i with percentile (i + 1) / 1326; every stored percentile lies in
(0, 1]; a pair with strictly higher strength score never receives a
strictly lower percentile; and rebuilding the table reproduces the
identical mapping. -/
theorem preflop_percentile_table_spec :
    combos.length = 1326 ∧
    _preflop_percentile_table.length = 1326 ∧
    (∀ (i : Nat) (h1 : i < _preflop_percentile_table.length)
        (h2 : i < sortedCombos.length),
        _preflop_percentile_table.get ⟨i, h1⟩ =
          ((sortedCombos.get ⟨i, h2⟩).2, ((i + 1 : ℕ) : ℚ) / 1326)) ∧
    (∀ (k : Code × Code) (v : ℚ), (k, v) ∈ _preflop_percentile_table →
        0 < v ∧ v ≤ 1) ∧
    (∀ (a b c d : Code), a ∈ deck → b ∈ deck → c ∈ deck → d ∈ deck →
        a ≠ b → c ≠ d →
        _preflop_strength_score c d < _preflop_strength_score a b →
        ∃ p q, alookup (_combo_key a b) _preflop_percentile_table = some p ∧
          alookup (_combo_key c d) _preflop_percentile_table = some q ∧ q ≤ p) ∧
    (∀ u v : Unit, buildPercentileTable u = buildPercentileTable v) := by
  have hsortlen : sortedCombos.length = 1326 := by
    unfold sortedCombos
    rw [List.length_mergeSort, combos_length]
  refine ⟨combos_length, table_length, ?_, ?_, ?_, ?_⟩
  · intro i h1 h2
    have h3 : i < (assignPct ((combos.length : ℕ) : ℚ) 0 sortedCombos).length := by
      rw [assignPct_length]
      exact h2
    have hget := assignPct_get ((combos.length : ℕ) : ℚ) sortedCombos 0 i h3 h2
    have harith : 0 + i + 1 = i + 1 := by omega
    rw [harith] at hget
    refine hget.trans ?_
    have h4 : ((combos.length : ℕ) : ℚ) = 1326 := by
      rw [combos_length]
      norm_num
    rw [h4]
  · intro k v hm
    have hm2 : (k, v) ∈ assignPct ((combos.length : ℕ) : ℚ) 0 sortedCombos := hm
    obtain ⟨i, hi, hv⟩ := assignPct_mem _ _ _ _ _ hm2
    rw [hsortlen] at hi
    have harith : 0 + i + 1 = i + 1 := by omega
    rw [harith, combos_length] at hv
    subst hv
    constructor
    · positivity
    · rw [div_le_one (by norm_num)]
      have : (i : ℚ) + 1 ≤ 1326 := by
        have : i + 1 ≤ 1326 := hi
        exact_mod_cast this
      push_cast
      linarith
  · intro a b c d ha hb hc hd hab hcd hscore
    obtain ⟨i, hi, hgi, hli⟩ := table_entry_of_pair a b ha hb hab
    obtain ⟨j, hj, hgj, hlj⟩ := table_entry_of_pair c d hc hd hcd
    refine ⟨_, _, hli, hlj, ?_⟩
    have hn : (0 : ℚ) < ((combos.length : ℕ) : ℚ) := by
      rw [combos_length]
      norm_num
    rw [div_le_div_iff_of_pos_right hn]
    have hji : j < i := by
      rcases Nat.lt_trichotomy i j with hij | hij | hij
      · exfalso
        have hp := (List.pairwise_iff_get.mp sortedCombos_pairwise) ⟨i, hi⟩ ⟨j, hj⟩ hij
        rw [hgi, hgj] at hp
        simp only [scoreLe, decide_eq_true_eq] at hp
        omega
      · exfalso
        have : sortedCombos.get ⟨i, hi⟩ = sortedCombos.get ⟨j, hj⟩ := by
          congr 1
          exact Fin.ext hij
        rw [hgi, hgj] at this
        have hs : _preflop_strength_score a b = _preflop_strength_score c d :=
          congrArg Prod.fst this
        omega
      · exact hij
    have : (j + 1 : ℕ) ≤ (i + 1 : ℕ) := by omega
    exact_mod_cast this
  · intro u v
    cases u
    cases v
    rfl

/-- C7 witness: a pair of aces scores strictly higher than 2-3 offsuit and
the table assigns it a percentile at least as large. -/
theorem preflop_percentile_table_spec_witness :
    (enc 65 83 ∈ deck ∧ enc 65 72 ∈ deck ∧ enc 50 67 ∈ deck ∧ enc 51 68 ∈ deck ∧
      enc 65 83 ≠ enc 65 72 ∧ enc 50 67 ≠ enc 51 68 ∧
      _preflop_strength_score (enc 50 67) (enc 51 68) <
        _preflop_strength_score (enc 65 83) (enc 65 72)) ∧
    (∃ p q, alookup (_combo_key (enc 65 83) (enc 65 72)) _preflop_percentile_table = some p ∧
      alookup (_combo_key (enc 50 67) (enc 51 68)) _preflop_percentile_table = some q ∧
      q ≤ p) :=
  ⟨⟨by decide, by decide, by decide, by decide, by decide, by decide, by decide⟩,
    preflop_percentile_table_spec.2.2.2.2.1 (enc 65 83) (enc 65 72) (enc 50 67) (enc 51 68)
      (by decide) (by decide) (by decide) (by decide) (by decide) (by decide) (by decide)⟩

end Poker
